import Mathlib

/-!
Shallow embedding of the gesture-recognition core of
`circuit.py` (Waveshare 1.28" LCD RP2040 board driver):
the battery percentage computation (`Battery._update`), the raw IMU
sample decoding (`QMI8658_Accelerometer.read_raw_xyz`), and the
accelerometer tick (`wsRP2040128._update_accelerometer`) with its
momentum tracker, tilt classifier, tilt/command histories and
combination detector.

Modelling conventions:
* Python floats used for timestamps and battery voltages are modelled
  as rationals; the integer arithmetic of the tick is modelled as `Int`.
* Tilt states, commands and combination flags are Python strings and
  are modelled as Lean `String`s with the exact same literals.
* `tilt_history` initially holds three dict entries
  `{'state': 'resting', 'time': ...}` while the entries appended by
  ticks are plain strings; a Python `==` between a dict and a string is
  `False`.  Entries are therefore modelled as `Option String`, with
  `none` standing for an initial dict entry (whose state field reads
  `'resting'`) and `some s` for an appended string `s`.
* Both history lists start with exactly 3 entries and every append is
  followed by `pop(0)` once the length exceeds 3, so the length is
  always 3; they are modelled as triples with
  `push3 (a, b, c) x = (b, c, x)`.
* All `time.monotonic()` calls inside one tick are modelled as a single
  `now` parameter.
-/

namespace Circuit

/-! ## Battery (`Battery._update`, `circuit.py` lines 48-58) -/

def max_voltage : ℚ := 414 / 100

def min_voltage : ℚ := 34 / 10

def max_diff : ℚ := max_voltage - min_voltage

/-- Percentage computed by `Battery._update` from a measured voltage:
`100` above `max_voltage`, `0` below `min_voltage`, otherwise
`(max_voltage - v) / max_diff * 100`. -/
def battery_percent (v : ℚ) : ℚ :=
  if v > max_voltage then 100
  else if v < min_voltage then 0
  else ((max_voltage - v) / max_diff) * 100

/-! ## Raw sample decoding (`QMI8658_Accelerometer.read_raw_xyz`,
`circuit.py` lines 199-212) -/

/-- The little-endian 16-bit word at index `i` of the 12-byte block:
`(raw_xyz[(i*2)+1] << 8) | raw_xyz[i*2]`. -/
def word16 (b : List ℕ) (i : ℕ) : ℕ :=
  ((b.getD (i * 2 + 1) 0) <<< 8) ||| b.getD (i * 2) 0

/-- The sign adjustment done by `read_raw_xyz`:
`if xyz[i] >= 32767: xyz[i] = xyz[i] - 65535`. -/
def raw_adjust (u : ℤ) : ℤ :=
  if u ≥ 32767 then u - 65535 else u

/-- The six values produced by `read_raw_xyz` from the 12-byte
register block. -/
def read_raw_xyz (b : List ℕ) : List ℤ :=
  (List.range 6).map fun i => raw_adjust (word16 b i)

/-- The genuine two's-complement reading of a 16-bit word, written
from the spec's words ("two's-complement signed interpretation") for
comparison with `raw_adjust`. -/
def twosComplement16 (u : ℤ) : ℤ :=
  if u ≥ 32768 then u - 65536 else u

/-! ## Momentum tracker (`circuit.py` lines 693-708) -/

/-- One axis of the momentum clamp: the two sequential `if` statements
`if m > max: m = max` and `if m < max*-1: m = max*-1`. -/
def clamp_axis (mx v : ℤ) : ℤ :=
  let v1 := if v > mx then mx else v
  if v1 < mx * (-1) then mx * (-1) else v1

/-- One tick of the momentum tracker on one axis:
`momentum[axis] += accel[axis]` followed by the clamp. -/
def momentum_update (mx m a : ℤ) : ℤ :=
  clamp_axis mx (m + a)

/-- The successive momentum values reached after each update of a run
of ticks with the given per-tick accelerations. -/
def momentum_states (mx : ℤ) (m : ℤ) : List ℤ → List ℤ
  | [] => []
  | a :: as =>
      momentum_update mx m a :: momentum_states mx (momentum_update mx m a) as

/-! ## Tilt classifier (`circuit.py` lines 711-741) -/

/-- Per-axis x label (`circuit.py` lines 711-716). -/
def tilt_x (gx : ℤ) : String :=
  if gx > 0 then "right" else if gx < 0 then "left" else "center"

/-- Per-axis y label (`circuit.py` lines 717-722). -/
def tilt_y (gy : ℤ) : String :=
  if gy > 0 then "up" else if gy < 0 then "down" else "center"

/-- Per-axis twist label (`circuit.py` lines 723-728). -/
def tilt_twist (gz : ℤ) : String :=
  if gz > 0 then "left" else if gz < 0 then "right" else "center"

/-- The dominant-axis tilt state computed from the calibrated gyro
triple (`circuit.py` lines 733-741). -/
def tilt_state_of (gx gy gz : ℤ) : String :=
  if |gx| > |gy| ∧ |gx| > |gz| then "tilt " ++ tilt_x gx
  else if |gy| > |gx| ∧ |gy| > |gz| then "tilt " ++ tilt_y gy
  else if |gz| > |gx| ∧ |gz| > |gy| then "twist " ++ tilt_twist gz
  else "resting"

/-! ## Histories and the accelerometer tick
(`circuit.py` lines 742-813) -/

/-- A `tilt_history` entry: `none` is one of the three initial dict
entries `{'state': 'resting', 'time': ...}` (never equal, under
Python `==`, to any string); `some s` is a string entry appended by a
tick. -/
abbrev TiltEntry := Option String

/-- The state field of a `tilt_history` entry: the initial dict
entries carry the state `'resting'`. -/
def entry_state (e : TiltEntry) : String := e.getD "resting"

/-- Appending an entry and popping the oldest on a list that always
has exactly three elements. -/
def push3 {α : Type} (h : α × α × α) (x : α) : α × α × α :=
  (h.2.1, h.2.2, x)

/-- The mutable recognizer state carried by the `wsRP2040128` object
across ticks (the parts read or written by
`_update_accelerometer`; momentum is independent of the rest and is
modelled separately by `momentum_update`). -/
structure AccelState where
  tilt_state : Option String
  tilt_history : TiltEntry × TiltEntry × TiltEntry
  cur_tilt_command : String
  tilt_command_history : (String × ℚ) × (String × ℚ) × (String × ℚ)
  combination : String
deriving DecidableEq

/-- The recognizer state right after `wsRP2040128.__init__` at
time `t` (`circuit.py` lines 458-474). -/
def initState (t : ℚ) : AccelState where
  tilt_state := none
  tilt_history := (none, none, none)
  cur_tilt_command := "none"
  tilt_command_history := (("none", t), ("none", t), ("none", t))
  combination := ""

/-- Tilt-state edge detection (`circuit.py` lines 742-746): push the
freshly classified state when it differs from the recorded one. -/
def tiltStage (gx gy gz : ℤ) (s : AccelState) : AccelState :=
  let ts := tilt_state_of gx gy gz
  if some ts ≠ s.tilt_state then
    { s with tilt_state := some ts, tilt_history := push3 s.tilt_history (some ts) }
  else s

/-- Command derivation (`circuit.py` lines 748-766): the chain of
string comparisons on `tilt_history[0]` and `tilt_history[1]`. -/
def derive_command (h : TiltEntry × TiltEntry × TiltEntry) : String :=
  if h.1 = some "tilt left" ∧ h.2.1 = some "tilt right" then "tilt left"
  else if h.1 = some "tilt right" ∧ h.2.1 = some "tilt left" then "tilt right"
  else if h.1 = some "tilt up" ∧ h.2.1 = some "tilt down" then "tilt up"
  else if h.1 = some "tilt down" ∧ h.2.1 = some "tilt up" then "tilt down"
  else if h.1 = some "twist left" ∧ h.2.1 = some "twist right" then "twist left"
  else if h.1 = some "twist right" ∧ h.2.1 = some "twist left" then "twist right"
  else "none"

/-- Command debounce (`circuit.py` lines 768-773): a non-`'none'`
derived command is recorded only when it differs from the last
recorded one. -/
def cmdStage (now : ℚ) (s : AccelState) : AccelState :=
  let c := derive_command s.tilt_history
  if c ≠ "none" ∧ c ≠ s.cur_tilt_command then
    { s with cur_tilt_command := c,
             tilt_command_history := push3 s.tilt_command_history (c, now) }
  else s

/-- One combination pattern check (`circuit.py` lines 776-780 and the
three analogous blocks): the three command fields match and the oldest
entry is less than 2 seconds old. -/
def comb_hit (h : (String × ℚ) × (String × ℚ) × (String × ℚ))
    (p0 p1 p2 : String) (now : ℚ) : Prop :=
  h.1.1 = p0 ∧ h.2.1.1 = p1 ∧ h.2.2.1 = p2 ∧ now - h.1.2 < 2

instance (h : (String × ℚ) × (String × ℚ) × (String × ℚ))
    (p0 p1 p2 : String) (now : ℚ) : Decidable (comb_hit h p0 p1 p2 now) :=
  inferInstanceAs (Decidable (_ ∧ _ ∧ _ ∧ _))

/-- The three cleared entries `{'command': 'none', 'time': now}`
written when a combination fires (`circuit.py` lines 809-813). -/
def clearedHistory (now : ℚ) : (String × ℚ) × (String × ℚ) × (String × ℚ) :=
  (("none", now), ("none", now), ("none", now))

/-- The value of `self.combination` after the four sequential `if`
blocks of `circuit.py` lines 775-805 (the fourth, DUD, re-tests the
UDU pattern), starting from the value `c` it held before them. -/
def detect_combination (h : (String × ℚ) × (String × ℚ) × (String × ℚ))
    (now : ℚ) (c : String) : String :=
  let c1 := if comb_hit h "twist left" "twist right" "twist left" now then "LRL"
            else c
  let c2 := if comb_hit h "twist right" "twist left" "twist right" now then "RLR"
            else c1
  let c3 := if comb_hit h "tilt up" "tilt down" "tilt up" now then "UDU" else c2
  if comb_hit h "tilt up" "tilt down" "tilt up" now then "DUD" else c3

/-- Combination detection (`circuit.py` lines 775-813): the four
sequential `if` blocks writing `self.combination`, then the history
clear guarded by `self.combination != ''`. -/
def combStage (now : ℚ) (s : AccelState) : AccelState :=
  let c4 := detect_combination s.tilt_command_history now s.combination
  if c4 ≠ "" then
    { s with combination := c4, tilt_command_history := clearedHistory now }
  else
    { s with combination := c4 }

/-- One accelerometer tick (`_update_accelerometer`) on the recognizer
state, for a calibrated gyro triple read at time `now`. -/
def tick (gx gy gz : ℤ) (now : ℚ) (s : AccelState) : AccelState :=
  combStage now (cmdStage now (tiltStage gx gy gz s))

/-- A combination fires on a tick whose post-debounce command history
is `h` at time `now` exactly when one of the pattern checks succeeds
(the DUD check repeats the UDU pattern, so three distinct patterns). -/
def fires (h : (String × ℚ) × (String × ℚ) × (String × ℚ)) (now : ℚ) : Prop :=
  comb_hit h "twist left" "twist right" "twist left" now ∨
  comb_hit h "twist right" "twist left" "twist right" now ∨
  comb_hit h "tilt up" "tilt down" "tilt up" now

/-- States reachable from construction: any number of ticks with
arbitrary calibrated gyro readings and times, interleaved with the
consumer clearing the combination flag (`self.combination = ''` in the
demo loops). -/
inductive Reach : AccelState → Prop
  | init (t : ℚ) : Reach (initState t)
  | tick (gx gy gz : ℤ) (now : ℚ) {s : AccelState} :
      Reach s → Reach (tick gx gy gz now s)
  | consume {s : AccelState} :
      Reach s → Reach { s with combination := "" }

/-! ## Predicates used to state the verified properties -/

/-- An axis value strictly dominates the two others in absolute
magnitude. -/
def strictly_dominant (a b c : ℤ) : Prop := |a| > |b| ∧ |a| > |c|

instance (a b c : ℤ) : Decidable (strictly_dominant a b c) :=
  inferInstanceAs (Decidable (_ ∧ _))

/-- The antiparallel-pair command mapping exactly as the spec words
it: `(tilt-left, tilt-right)` raises `tilt left`, and so on for the
six pairs; any other pairing yields no command.  Stated on an ordered
pair of history entries so it can be compared with `derive_command`
at any two chosen indices. -/
def antiparallel_command (a b : TiltEntry) : String :=
  if a = some "tilt left" ∧ b = some "tilt right" then "tilt left"
  else if a = some "tilt right" ∧ b = some "tilt left" then "tilt right"
  else if a = some "tilt up" ∧ b = some "tilt down" then "tilt up"
  else if a = some "tilt down" ∧ b = some "tilt up" then "tilt down"
  else if a = some "twist left" ∧ b = some "twist right" then "twist left"
  else if a = some "twist right" ∧ b = some "twist left" then "twist right"
  else "none"

/-- A recognizer state with a given command history, at rest and with
the newest recorded command as the debouncer value: used to exercise
the combination detector on concrete histories. -/
def cmdState (h : (String × ℚ) × (String × ℚ) × (String × ℚ)) : AccelState where
  tilt_state := some "resting"
  tilt_history := (none, none, some "resting")
  cur_tilt_command := h.2.2.1
  tilt_command_history := h
  combination := ""

/-- No two adjacent entries of the tilt history that were both
appended by ticks (string entries) hold equal states. -/
def tilt_edge_ok (h : TiltEntry × TiltEntry × TiltEntry) : Prop :=
  (∀ a b : String, h.1 = some a → h.2.1 = some b → a ≠ b) ∧
  (∀ a b : String, h.2.1 = some a → h.2.2 = some b → a ≠ b)

/-- No two adjacent entries of the command history hold equal
non-`'none'` commands. -/
def cmd_edge_ok (h : (String × ℚ) × (String × ℚ) × (String × ℚ)) : Prop :=
  (h.1.1 ≠ "none" → h.2.1.1 ≠ "none" → h.1.1 ≠ h.2.1.1) ∧
  (h.2.1.1 ≠ "none" → h.2.2.1 ≠ "none" → h.2.1.1 ≠ h.2.2.1)

/-- The inductive invariant carried through `Reach`: the recorded
tilt state is the newest tilt-history entry, adjacent appended tilt
entries differ, the newest command entry is `'none'` or the debounced
command, and adjacent non-`'none'` command entries differ. -/
def Inv (s : AccelState) : Prop :=
  s.tilt_state = s.tilt_history.2.2 ∧
  tilt_edge_ok s.tilt_history ∧
  (s.tilt_command_history.2.2.1 = "none" ∨
    s.tilt_command_history.2.2.1 = s.cur_tilt_command) ∧
  cmd_edge_ok s.tilt_command_history

/-- A 12-byte register block in which every little-endian word is
`0x7FFF = 32767`. -/
def cex_block : List ℕ :=
  [255, 127, 255, 127, 255, 127, 255, 127, 255, 127, 255, 127]

/-! ## Theorems -/

lemma dominant_ne_zero {a b c : ℤ} (h : strictly_dominant a b c) : a ≠ 0 := by
  rintro rfl
  rcases h with ⟨h1, _⟩
  rw [abs_zero] at h1
  linarith [abs_nonneg b]

/-- Claim C1: the tilt classification selects the axis whose absolute
value is strictly greater than both others — prefixing `tilt` for x/y
and `twist` for z with the per-axis sign label — and returns
`resting` if and only if no single axis has strictly greater absolute
magnitude than both others. -/
theorem tilt_classify_correct (gx gy gz : ℤ) :
    (tilt_state_of gx gy gz = "resting" ↔
      ¬ (strictly_dominant gx gy gz ∨ strictly_dominant gy gx gz ∨
         strictly_dominant gz gx gy)) ∧
    (strictly_dominant gx gy gz →
      tilt_state_of gx gy gz = if gx > 0 then "tilt right" else "tilt left") ∧
    (strictly_dominant gy gx gz →
      tilt_state_of gx gy gz = if gy > 0 then "tilt up" else "tilt down") ∧
    (strictly_dominant gz gx gy →
      tilt_state_of gx gy gz = if gz > 0 then "twist left" else "twist right") := by
  have hx : strictly_dominant gx gy gz →
      tilt_state_of gx gy gz = if gx > 0 then "tilt right" else "tilt left" := by
    intro h
    have hne := dominant_ne_zero h
    rw [tilt_state_of, if_pos (show |gx| > |gy| ∧ |gx| > |gz| from h)]
    rcases lt_or_gt_of_ne hne with hlt | hgt
    · have h1 : ¬ gx > 0 := by omega
      simp [tilt_x, h1, hlt]
    · simp [tilt_x, hgt]
  have hy : strictly_dominant gy gx gz →
      tilt_state_of gx gy gz = if gy > 0 then "tilt up" else "tilt down" := by
    intro h
    have hne := dominant_ne_zero h
    have hnx : ¬ (|gx| > |gy| ∧ |gx| > |gz|) := by
      have := h.1
      intro hc
      omega
    rw [tilt_state_of, if_neg hnx,
      if_pos (show |gy| > |gx| ∧ |gy| > |gz| from h)]
    rcases lt_or_gt_of_ne hne with hlt | hgt
    · have h1 : ¬ gy > 0 := by omega
      simp [tilt_y, h1, hlt]
    · simp [tilt_y, hgt]
  have hz : strictly_dominant gz gx gy →
      tilt_state_of gx gy gz = if gz > 0 then "twist left" else "twist right" := by
    intro h
    have hne := dominant_ne_zero h
    have hnx : ¬ (|gx| > |gy| ∧ |gx| > |gz|) := by
      have := h.1
      intro hc
      omega
    have hny : ¬ (|gy| > |gx| ∧ |gy| > |gz|) := by
      have := h.2
      intro hc
      omega
    rw [tilt_state_of, if_neg hnx, if_neg hny,
      if_pos (show |gz| > |gx| ∧ |gz| > |gy| from h)]
    rcases lt_or_gt_of_ne hne with hlt | hgt
    · have h1 : ¬ gz > 0 := by omega
      simp [tilt_twist, h1, hlt]
    · simp [tilt_twist, hgt]
  refine ⟨⟨fun hr hd => ?_, fun hnd => ?_⟩, hx, hy, hz⟩
  · rcases hd with h | h | h
    · rw [hx h] at hr
      split_ifs at hr <;> exact absurd hr (by decide)
    · rw [hy h] at hr
      split_ifs at hr <;> exact absurd hr (by decide)
    · rw [hz h] at hr
      split_ifs at hr <;> exact absurd hr (by decide)
  · push_neg at hnd
    rw [tilt_state_of,
      if_neg (show ¬ (|gx| > |gy| ∧ |gx| > |gz|) from hnd.1),
      if_neg (show ¬ (|gy| > |gx| ∧ |gy| > |gz|) from hnd.2.1),
      if_neg (show ¬ (|gz| > |gx| ∧ |gz| > |gy|) from hnd.2.2)]

/-- Witness for C1 at the concrete gyro triples `(5, -3, 0)` and
`(1, 1, 1)`. -/
theorem tilt_classify_witness :
    tilt_state_of 5 (-3) 0 = "tilt right" ∧ tilt_state_of 1 1 1 = "resting" :=
  ⟨((tilt_classify_correct 5 (-3) 0).2.1 (by decide)).trans (by decide),
   (tilt_classify_correct 1 1 1).1.mpr (by decide)⟩

/-- Claim C6: the momentum update adds the tick's calibrated
acceleration and clamps the result to `[-max, max]`; every momentum
value reached over any run of ticks stays within the bound, and a
single update changes the momentum by at most the magnitude of the
acceleration. -/
theorem momentum_clamped (mx m a : ℤ) (as : List ℤ) (hmx : 0 ≤ mx)
    (hm : |m| ≤ mx) :
    momentum_update mx m a = max (mx * (-1)) (min mx (m + a)) ∧
    (∀ v ∈ momentum_states mx m as, |v| ≤ mx) ∧
    |momentum_update mx m a - m| ≤ |a| := by
  have hclamp : ∀ v : ℤ, |clamp_axis mx v| ≤ mx := by
    intro v
    rw [abs_le]
    simp only [clamp_axis]
    constructor <;> (split_ifs <;> omega)
  refine ⟨?_, ?_, ?_⟩
  · simp only [momentum_update, clamp_axis, max_def, min_def]
    split_ifs <;> omega
  · induction as generalizing m with
    | nil => simp [momentum_states]
    | cons hd tl ih =>
        intro v hv
        rw [momentum_states] at hv
        rcases List.mem_cons.mp hv with rfl | hv
        · exact hclamp _
        · exact ih _ (hclamp _) v hv
  · rw [abs_le] at hm ⊢
    rcases abs_cases a with ⟨ha, ha0⟩ | ⟨ha, ha0⟩ <;>
      (rw [ha]; simp only [momentum_update, clamp_axis]; split_ifs <;> omega)

/-- Witness for C6 with the default bound 10, momentum 0, a single
acceleration of 25 and the run `[3, 4, -30]`. -/
theorem momentum_clamped_witness :
    |momentum_update 10 0 25 - 0| ≤ |25| ∧
    |(momentum_states 10 0 [3, 4, -30]).getD 2 0| ≤ 10 ∧
    momentum_update 10 0 25 = max (10 * (-1)) (min 10 (0 + 25)) := by
  have h := momentum_clamped 10 0 25 [3, 4, -30] (by decide) (by decide)
  exact ⟨h.2.2, h.2.1 _ (by decide), h.1⟩

/-- Claim C8 (code bug): inside `[min_voltage, max_voltage]` the
computed percentage is the decreasing linear map — `100` exactly at
`min_voltage` and `0` exactly at `max_voltage` — while voltages above
`max_voltage` read `100`, so the percentage is not the increasing
linear map the claim describes and jumps from `0` to `100` at
`max_voltage`. -/
theorem battery_percent_inverted :
    battery_percent min_voltage = 100 ∧ battery_percent max_voltage = 0 ∧
    battery_percent (max_voltage + 1 / 100) = 100 := by
  norm_num [battery_percent, min_voltage, max_voltage, max_diff]

/-- Counterexample for C9: on the block whose words are all `32767`,
`read_raw_xyz` yields `-32768` for every value, while the
two's-complement interpretation of `32767` is `32767` and `-32768`
lies outside the claimed range `[-32767, 32767]`. -/
theorem read_raw_counterexample :
    read_raw_xyz cex_block = List.replicate 6 (-32768) ∧
    twosComplement16 (word16 cex_block 0) = 32767 ∧
    ¬ (-32767 ≤ (-32768 : ℤ)) := by decide

/-- Claim C9 as amended: for byte-valued blocks each produced value
lies in `[-32768, 32766]`, and it agrees with the two's-complement
interpretation of its little-endian word exactly when that word is
below `32767` (the code subtracts `65535` once the word reaches
`32767`, an off-by-one in both the threshold and the offset). -/
theorem read_raw_amended (b : List ℕ) (hb : ∀ x ∈ b, x < 256) (i : ℕ)
    (hi : i < 6) :
    -32768 ≤ (read_raw_xyz b).getD i 0 ∧ (read_raw_xyz b).getD i 0 ≤ 32766 ∧
    ((read_raw_xyz b).getD i 0 = twosComplement16 (word16 b i) ↔
      word16 b i < 32767) := by
  have hbyte : ∀ k, b.getD k 0 < 256 := by
    intro k
    rcases Nat.lt_or_ge k b.length with h | h
    · rw [List.getD_eq_getElem b 0 h]
      exact hb _ (List.getElem_mem h)
    · rw [List.getD_eq_default b 0 h]
      omega
  have hword : ∀ j : ℕ, word16 b j < 65536 := by
    intro j
    have e1 : (2 : ℕ) ^ 16 = 65536 := by norm_num
    have e2 : (2 : ℕ) ^ 8 = 256 := by norm_num
    have h1 : b.getD (j * 2 + 1) 0 <<< 8 < 2 ^ 16 := by
      rw [Nat.shiftLeft_eq, e2, e1]
      have := hbyte (j * 2 + 1)
      omega
    have h2 : b.getD (j * 2) 0 < 2 ^ 16 := by
      rw [e1]
      have := hbyte (j * 2)
      omega
    have h3 := Nat.or_lt_two_pow h1 h2
    rw [e1] at h3
    rw [word16]
    exact h3
  have key : ∀ j : ℕ, -32768 ≤ raw_adjust (word16 b j) ∧
      raw_adjust (word16 b j) ≤ 32766 ∧
      (raw_adjust (word16 b j) = twosComplement16 (word16 b j) ↔
        word16 b j < 32767) := by
    intro j
    have h1 := hword j
    have h0 : (0 : ℤ) ≤ (word16 b j : ℤ) := Int.natCast_nonneg _
    have h1' : (word16 b j : ℤ) < 65536 := by exact_mod_cast h1
    simp only [raw_adjust, twosComplement16]
    constructor
    · split_ifs <;> omega
    constructor
    · split_ifs <;> omega
    · constructor
      · intro he
        split_ifs at he <;> omega
      · intro hlt
        have hlt' : (word16 b j : ℤ) < 32767 := by exact_mod_cast hlt
        split_ifs <;> omega
  have hidx : (read_raw_xyz b).getD i 0 = raw_adjust (word16 b i) := by
    interval_cases i <;> rfl
  rw [hidx]
  exact key i

/-- Witness for the amended C9 at the all-`0x7FFF` block. -/
theorem read_raw_amended_witness :
    -32768 ≤ (read_raw_xyz cex_block).getD 0 0 ∧
    (read_raw_xyz cex_block).getD 0 0 ≤ 32766 ∧
    ((read_raw_xyz cex_block).getD 0 0 = twosComplement16 (word16 cex_block 0) ↔
      word16 cex_block 0 < 32767) :=
  read_raw_amended cex_block (by decide) 0 (by decide)

/-- Counterexample for C2: with tilt history
`(resting, tilt-left, tilt-right)`, whose two most recent entries form
the antiparallel pair `(tilt-left, tilt-right)` that the claimed
mapping sends to `tilt left`, the derivation yields no command — the
code examines entries `[0]` and `[1]`, not the two most recent. -/
theorem derive_command_counterexample :
    derive_command (some "resting", some "tilt left", some "tilt right") = "none" ∧
    antiparallel_command (some "tilt left") (some "tilt right") = "tilt left" := by
  decide

/-- Claim C2 as amended: command derivation examines entries `[0]`
and `[1]` of the tilt history — the two oldest of the three, the
newest entry being ignored entirely — and raises a command exactly
for the six antiparallel pairs of that older pair, every other
pairing yielding no command. -/
theorem derive_command_amended (e0 e1 e2 : TiltEntry) :
    derive_command (e0, e1, e2) = antiparallel_command e0 e1 ∧
    (∀ x : TiltEntry, derive_command (e0, e1, x) = derive_command (e0, e1, e2)) :=
  ⟨rfl, fun _ => rfl⟩

/-- Claim C3: starting from a state that is not already flagged
`LRL`, the detector reports `LRL` if and only if the three command
entries are exactly (twist-left, twist-right, twist-left) and `now`
minus the oldest timestamp is under 2 seconds; in particular it fires
for timestamps `(t0, t0+0.5, t0+1)` queried at `t0+1`, and fires
neither at `t0+2.5` nor for `(t0, t0+3, t0+3.1)` queried at
`t0+3.1`. -/
theorem combination_LRL (s : AccelState) (now t0 : ℚ)
    (hclean : s.combination ≠ "LRL") :
    ((combStage now s).combination = "LRL" ↔
      comb_hit s.tilt_command_history "twist left" "twist right" "twist left" now) ∧
    (combStage (t0 + 1) (cmdState
      (("twist left", t0), ("twist right", t0 + 1/2),
       ("twist left", t0 + 1)))).combination = "LRL" ∧
    (combStage (t0 + 5/2) (cmdState
      (("twist left", t0), ("twist right", t0 + 1/2),
       ("twist left", t0 + 1)))).combination = "" ∧
    (combStage (t0 + 31/10) (cmdState
      (("twist left", t0), ("twist right", t0 + 3),
       ("twist left", t0 + 31/10)))).combination = "" := by
  refine ⟨?_, ?_, ?_, ?_⟩
  · constructor
    · intro hc
      by_cases h1 : comb_hit s.tilt_command_history
        "twist left" "twist right" "twist left" now
      · exact h1
      · exfalso
        by_cases h3 : comb_hit s.tilt_command_history
          "tilt up" "tilt down" "tilt up" now
        · simp [combStage, detect_combination, h1, h3] at hc
        · by_cases h2 : comb_hit s.tilt_command_history
            "twist right" "twist left" "twist right" now
          · simp [combStage, detect_combination, h1, h2, h3] at hc
          · simp [combStage, detect_combination, h1, h2, h3] at hc
            split_ifs at hc
            · exact hclean hc
            · exact hclean hc
    · intro h1
      rcases h1 with ⟨h0, hm, hn, ht⟩
      simp [combStage, detect_combination, comb_hit, h0, hm, hn, ht]
  · have hlt : (1 : ℚ) < 2 := by norm_num
    simp [combStage, detect_combination, cmdState, comb_hit, hlt]
  · have hge : ¬ ((5 : ℚ) / 2 < 2) := by norm_num
    simp [combStage, detect_combination, cmdState, comb_hit, hge]
  · have hge : ¬ ((31 : ℚ) / 10 < 2) := by norm_num
    simp [combStage, detect_combination, cmdState, comb_hit, hge]

/-- Witness for C3 at the start state and at `t0 = 0`. -/
theorem combination_LRL_witness :
    ((combStage 1 (initState 0)).combination = "LRL" ↔
      comb_hit (initState 0).tilt_command_history
        "twist left" "twist right" "twist left" 1) ∧
    (combStage (0 + 1) (cmdState
      (("twist left", 0), ("twist right", 0 + 1/2),
       ("twist left", 0 + 1)))).combination = "LRL" ∧
    (combStage (0 + 5/2) (cmdState
      (("twist left", 0), ("twist right", 0 + 1/2),
       ("twist left", 0 + 1)))).combination = "" ∧
    (combStage (0 + 31/10) (cmdState
      (("twist left", 0), ("twist right", 0 + 3),
       ("twist left", 0 + 31/10)))).combination = "" :=
  combination_LRL (initState 0) 1 0 (by decide)

/-- Counterexample for C5: at the end of a tick whose command history
is exactly (tilt-up, tilt-down, tilt-up) within the 2-second window,
the surfaced combination is `DUD`, not `UDU` — the DUD block re-tests
the same pattern after the UDU block and overwrites it. -/
theorem combination_UDU_counterexample :
    (tick 0 0 0 (3/2) (cmdState
      (("tilt up", 0), ("tilt down", 1/2), ("tilt up", 1)))).combination
      = "DUD" ∧
    (tick 0 0 0 (3/2) (cmdState
      (("tilt up", 0), ("tilt down", 1/2), ("tilt up", 1)))).combination
      ≠ "UDU" := by
  have hlt : (3 : ℚ) / 2 < 2 := by norm_num
  have hts : tilt_state_of 0 0 0 = "resting" := by decide
  constructor <;>
    simp [tick, tiltStage, cmdStage, combStage, detect_combination, cmdState,
      hts, derive_command, comb_hit, clearedHistory, push3, hlt]

/-- Claim C5 as amended: when the three command entries are exactly
(tilt-up, tilt-down, tilt-up) and the oldest is under 2 seconds old,
the combination surfaced at the end of the detection step is `DUD`:
the DUD block, which re-tests this same pattern, runs last and
overwrites the `UDU` value the UDU block had just written. -/
theorem combination_same_pattern_DUD (s : AccelState) (now : ℚ)
    (h0 : s.tilt_command_history.1.1 = "tilt up")
    (h1 : s.tilt_command_history.2.1.1 = "tilt down")
    (h2 : s.tilt_command_history.2.2.1 = "tilt up")
    (ht : now - s.tilt_command_history.1.2 < 2) :
    (combStage now s).combination = "DUD" := by
  simp [combStage, detect_combination, comb_hit, h0, h1, h2, ht]

/-- Witness for the amended C5 on a concrete history. -/
theorem combination_same_pattern_DUD_witness :
    (combStage 1 (cmdState
      (("tilt up", 0), ("tilt down", 0), ("tilt up", 0)))).combination = "DUD" :=
  combination_same_pattern_DUD _ 1 rfl rfl rfl (by norm_num [cmdState])

lemma tiltStage_proj (gx gy gz : ℤ) (s : AccelState) :
    (tiltStage gx gy gz s).cur_tilt_command = s.cur_tilt_command ∧
    (tiltStage gx gy gz s).tilt_command_history = s.tilt_command_history ∧
    (tiltStage gx gy gz s).combination = s.combination := by
  simp only [tiltStage]
  split <;> exact ⟨rfl, rfl, rfl⟩

lemma cmdStage_proj (now : ℚ) (s : AccelState) :
    (cmdStage now s).tilt_state = s.tilt_state ∧
    (cmdStage now s).tilt_history = s.tilt_history ∧
    (cmdStage now s).combination = s.combination := by
  simp only [cmdStage]
  split <;> exact ⟨rfl, rfl, rfl⟩

lemma cmdStage_cases (now : ℚ) (s : AccelState) :
    (cmdStage now s = s ∧ (derive_command s.tilt_history = "none" ∨
      derive_command s.tilt_history = s.cur_tilt_command)) ∨
    (derive_command s.tilt_history ≠ "none" ∧
     derive_command s.tilt_history ≠ s.cur_tilt_command ∧
     cmdStage now s = { s with
       cur_tilt_command := derive_command s.tilt_history,
       tilt_command_history :=
         push3 s.tilt_command_history (derive_command s.tilt_history, now) }) := by
  by_cases h : derive_command s.tilt_history ≠ "none" ∧
      derive_command s.tilt_history ≠ s.cur_tilt_command
  · right
    refine ⟨h.1, h.2, ?_⟩
    simp only [cmdStage]
    rw [if_pos h]
  · left
    constructor
    · simp only [cmdStage]
      rw [if_neg h]
    · push_neg at h
      rcases eq_or_ne (derive_command s.tilt_history) "none" with he | he
      · exact Or.inl he
      · exact Or.inr (h he)

lemma combStage_cases (now : ℚ) (s : AccelState) :
    ((combStage now s).tilt_command_history = s.tilt_command_history ∨
     (combStage now s).tilt_command_history = clearedHistory now) ∧
    (combStage now s).cur_tilt_command = s.cur_tilt_command ∧
    (combStage now s).tilt_state = s.tilt_state ∧
    (combStage now s).tilt_history = s.tilt_history := by
  simp only [combStage]
  split
  · exact ⟨Or.inr rfl, rfl, rfl, rfl⟩
  · exact ⟨Or.inl rfl, rfl, rfl, rfl⟩

lemma combStage_clears_of_fires (now : ℚ) (s : AccelState)
    (h : fires s.tilt_command_history now) :
    (combStage now s).tilt_command_history = clearedHistory now := by
  rcases h with ⟨h0, h1, h2, ht⟩ | ⟨h0, h1, h2, ht⟩ | ⟨h0, h1, h2, ht⟩ <;>
    simp [combStage, detect_combination, comb_hit, h0, h1, h2, ht]

lemma Inv_init (t : ℚ) : Inv (initState t) := by
  refine ⟨rfl, ⟨?_, ?_⟩, Or.inl rfl, ⟨?_, ?_⟩⟩
  · exact fun a b h => nomatch h
  · exact fun a b h => nomatch h
  · exact fun h => absurd rfl h
  · exact fun h => absurd rfl h

lemma Inv_tiltStage (gx gy gz : ℤ) (s : AccelState) (hs : Inv s) :
    Inv (tiltStage gx gy gz s) := by
  obtain ⟨hts, ⟨he1, he2⟩, hcmd, hedge⟩ := hs
  simp only [tiltStage]
  split
  case isTrue h =>
    refine ⟨rfl, ⟨he2, ?_⟩, hcmd, hedge⟩
    intro a b ha hb hab
    dsimp only [push3] at ha hb
    apply h
    rw [hts, ha]
    injection hb with hb'
    rw [hb', hab]
  case isFalse h => exact ⟨hts, ⟨he1, he2⟩, hcmd, hedge⟩

lemma Inv_cmdStage (now : ℚ) (s : AccelState) (hs : Inv s) :
    Inv (cmdStage now s) := by
  obtain ⟨hts, hedge, hnewest, ⟨hc1, hc2⟩⟩ := hs
  rcases cmdStage_cases now s with ⟨he, _⟩ | ⟨hne, hnecur, he⟩
  · rw [he]
    exact ⟨hts, hedge, hnewest, hc1, hc2⟩
  · rw [he]
    refine ⟨hts, hedge, Or.inr rfl, ⟨hc2, ?_⟩⟩
    intro hne2 hcn
    dsimp only [push3] at hne2 hcn ⊢
    rcases hnewest with h0 | h0
    · exact absurd h0 hne2
    · rw [h0]
      exact fun hh => hnecur hh.symm

lemma Inv_combStage (now : ℚ) (s : AccelState) (hs : Inv s) :
    Inv (combStage now s) := by
  obtain ⟨hts, hedge, hnewest, hcedge⟩ := hs
  simp only [combStage]
  split
  · exact ⟨hts, hedge, Or.inl rfl, ⟨fun h => absurd rfl h, fun h => absurd rfl h⟩⟩
  · exact ⟨hts, hedge, hnewest, hcedge⟩

lemma Inv_consume (s : AccelState) (hs : Inv s) :
    Inv { s with combination := "" } := hs

lemma reach_Inv (s : AccelState) (hs : Reach s) : Inv s := by
  induction hs with
  | init t => exact Inv_init t
  | tick gx gy gz now hr ih =>
      exact Inv_combStage _ _ (Inv_cmdStage _ _ (Inv_tiltStage _ _ _ _ ih))
  | consume hr ih => exact Inv_consume _ ih

/-- Counterexample for C7: after a single tick with a zero gyro
reading, the tilt history of the reachable state holds three entries
whose states all read `resting` — the two leftover construction
placeholders and the freshly appended `resting` — so consecutive
entries with equal states do occur. -/
theorem tilt_history_counterexample :
    Reach (tick 0 0 0 1 (initState 0)) ∧
    entry_state (tick 0 0 0 1 (initState 0)).tilt_history.1 =
      entry_state (tick 0 0 0 1 (initState 0)).tilt_history.2.1 ∧
    entry_state (tick 0 0 0 1 (initState 0)).tilt_history.2.1 =
      entry_state (tick 0 0 0 1 (initState 0)).tilt_history.2.2 :=
  ⟨Reach.tick 0 0 0 1 (Reach.init 0), rfl, rfl⟩

/-- Claim C7 as amended: in every reachable state, any two adjacent
tilt-history entries that were both appended by ticks hold different
states (the leftover construction placeholders, whose state field
reads `resting`, are exempt), and any two adjacent command-history
entries with non-`none` commands hold different commands. -/
theorem history_edge_invariant (s : AccelState) (hs : Reach s) :
    tilt_edge_ok s.tilt_history ∧ cmd_edge_ok s.tilt_command_history := by
  have hinv := reach_Inv s hs
  exact ⟨hinv.2.1, hinv.2.2.2⟩

/-- Witness for the amended C7 on the state reached by an up-flick
followed by a down-flick. -/
theorem history_edge_invariant_witness :
    entry_state (tick 0 (-5) 0 2 (tick 0 5 0 1 (initState 0))).tilt_history.2.1 ≠
      entry_state (tick 0 (-5) 0 2 (tick 0 5 0 1 (initState 0))).tilt_history.2.2 := by
  have h := history_edge_invariant _
    (Reach.tick 0 (-5) 0 2 (Reach.tick 0 5 0 1 (Reach.init 0)))
  exact fun he => h.1.2 "tilt up" "tilt down" rfl rfl he

/-- Claim C4: on a tick where a combination fires, the command
history ends the tick cleared to three `none` entries, and on the
following tick, if the derived command is `none` or equal to the
debounced command (so nothing is recorded), no combination fires
again. -/
theorem combination_clear_no_refire (s : AccelState)
    (gx gy gz ax ay az : ℤ) (now nx : ℚ)
    (hfire : fires (cmdStage now (tiltStage gx gy gz s)).tilt_command_history now)
    (hnc : derive_command (tiltStage ax ay az (tick gx gy gz now s)).tilt_history
        = "none" ∨
      derive_command (tiltStage ax ay az (tick gx gy gz now s)).tilt_history
        = (tick gx gy gz now s).cur_tilt_command) :
    (tick gx gy gz now s).tilt_command_history = clearedHistory now ∧
    ¬ fires (cmdStage nx
        (tiltStage ax ay az (tick gx gy gz now s))).tilt_command_history nx := by
  have h1 : (tick gx gy gz now s).tilt_command_history = clearedHistory now :=
    combStage_clears_of_fires now _ hfire
  refine ⟨h1, ?_⟩
  have h2 : (tiltStage ax ay az (tick gx gy gz now s)).tilt_command_history =
      clearedHistory now := by
    rw [(tiltStage_proj ax ay az _).2.1, h1]
  have hcur : (tiltStage ax ay az (tick gx gy gz now s)).cur_tilt_command =
      (tick gx gy gz now s).cur_tilt_command := (tiltStage_proj ax ay az _).1
  have h3 : (cmdStage nx
      (tiltStage ax ay az (tick gx gy gz now s))).tilt_command_history =
      clearedHistory now := by
    rcases cmdStage_cases nx (tiltStage ax ay az (tick gx gy gz now s)) with
      ⟨he, _⟩ | ⟨hne, hnecur, _⟩
    · rw [he]
      exact h2
    · exfalso
      rcases hnc with hd | hd
      · exact hne hd
      · exact hnecur (hd.trans hcur.symm)
  rw [h3]
  rintro (⟨h0, _⟩ | ⟨h0, _⟩ | ⟨h0, _⟩) <;> simp [clearedHistory] at h0

/-- Witness for C4: an LRL flick sequence completed at time 1,
followed by a quiet tick at time 2. -/
theorem combination_clear_no_refire_witness :
    (tick 0 0 0 1 (cmdState
      (("twist left", 0), ("twist right", 0),
       ("twist left", 0)))).tilt_command_history = clearedHistory 1 ∧
    ¬ fires (cmdStage 2 (tiltStage 0 0 0 (tick 0 0 0 1 (cmdState
      (("twist left", 0), ("twist right", 0),
       ("twist left", 0)))))).tilt_command_history 2 := by
  have hlt : (1 : ℚ) < 2 := by norm_num
  have hts : tilt_state_of 0 0 0 = "resting" := by decide
  apply combination_clear_no_refire
  · left
    refine ⟨rfl, rfl, rfl, show (1 : ℚ) - 0 < 2 by norm_num⟩
  · left
    simp [tick, tiltStage, cmdStage, combStage, detect_combination, cmdState,
      hts, derive_command, comb_hit, clearedHistory, push3, hlt]

/-- Claim C10: a tick only ever moves the debounced command
`cur_tilt_command` to a freshly derived non-`none` command — in
particular the combination clear never resets it to `none` — and on a
tick whose derived command equals the current debounced command the
command history is never pushed (it is left unchanged, or replaced by
the combination clear). -/
theorem cur_command_never_cleared (s s2 : AccelState)
    (gx gy gz ax ay az : ℤ) (now n2 : ℚ)
    (hder : derive_command (tiltStage gx gy gz s).tilt_history
      = s.cur_tilt_command) :
    (tick gx gy gz now s).cur_tilt_command = s.cur_tilt_command ∧
    ((tick gx gy gz now s).tilt_command_history = s.tilt_command_history ∨
      (tick gx gy gz now s).tilt_command_history = clearedHistory now) ∧
    ((tick ax ay az n2 s2).cur_tilt_command = s2.cur_tilt_command ∨
      (tick ax ay az n2 s2).cur_tilt_command ≠ "none") := by
  have hgen : (tick ax ay az n2 s2).cur_tilt_command = s2.cur_tilt_command ∨
      (tick ax ay az n2 s2).cur_tilt_command ≠ "none" := by
    have hc : (tick ax ay az n2 s2).cur_tilt_command =
        (cmdStage n2 (tiltStage ax ay az s2)).cur_tilt_command :=
      (combStage_cases n2 _).2.1
    rcases cmdStage_cases n2 (tiltStage ax ay az s2) with ⟨he, _⟩ | ⟨hne, _, he⟩
    · left
      rw [hc, he, (tiltStage_proj ax ay az s2).1]
    · right
      rw [hc, he]
      exact hne
  have hcur0 : (tiltStage gx gy gz s).cur_tilt_command = s.cur_tilt_command :=
    (tiltStage_proj gx gy gz s).1
  rcases cmdStage_cases now (tiltStage gx gy gz s) with ⟨he, _⟩ | ⟨hne, hnecur, _⟩
  · refine ⟨?_, ?_, hgen⟩
    · rw [show (tick gx gy gz now s).cur_tilt_command =
          (cmdStage now (tiltStage gx gy gz s)).cur_tilt_command from
          (combStage_cases now _).2.1, he, hcur0]
    · rcases (combStage_cases now (cmdStage now (tiltStage gx gy gz s))).1 with
        h | h
      · left
        rw [tick, h, he, (tiltStage_proj gx gy gz s).2.1]
      · right
        rw [tick, h]
  · exact absurd (hder.trans hcur0.symm) hnecur

/-- Witness for C10 at the start state. -/
theorem cur_command_never_cleared_witness :
    (tick 0 0 0 1 (initState 0)).cur_tilt_command =
      (initState 0).cur_tilt_command ∧
    ((tick 0 0 0 1 (initState 0)).tilt_command_history =
        (initState 0).tilt_command_history ∨
      (tick 0 0 0 1 (initState 0)).tilt_command_history = clearedHistory 1) ∧
    ((tick 0 0 0 2 (initState 5)).cur_tilt_command =
        (initState 5).cur_tilt_command ∨
      (tick 0 0 0 2 (initState 5)).cur_tilt_command ≠ "none") :=
  cur_command_never_cleared (initState 0) (initState 5) 0 0 0 0 0 0 1 2 rfl

end Circuit
